import Mathlib

/-!
Verification development for a collection of independent Python utility
functions (DNS resolution over IP lists, synthetic performance series,
traffic CSV generation, z-score normalization, random matrices, next
business day, bounded sums of squares).

Each Python function is shallowly embedded as a Lean definition operating
on explicit data: Python dicts become ordered association lists with
Python's insertion semantics, the pseudo-random generator becomes an
explicit stream of draws (one value per library call, in call order),
wall-clock time becomes an explicit parameter, and exceptions become
`Except` values.
-/

namespace F220

/-- Character-list matcher for the tail of the pattern
`[0-9]+(?:\.[0-9]+){3}`: `k` remaining `\.[0-9]+` groups.  Greedy
digit-matching is exact here because a digit can never match `\.`. -/
def matchQuadGroups : ℕ → List Char → Bool
  | 0, _ => true
  | k + 1, cs =>
    match cs with
    | '.' :: rest =>
        !(rest.takeWhile Char.isDigit).isEmpty &&
          matchQuadGroups k (rest.dropWhile Char.isDigit)
    | _ => false

/-- Embedding of `re.match(r'[0-9]+(?:\.[0-9]+){3}', s)` being truthy:
the pattern must match a prefix of `s` starting at position 0 (Python's
`re.match` anchors only at the start). -/
def matchesDottedQuad (s : String) : Bool :=
  !(s.data.takeWhile Char.isDigit).isEmpty &&
    matchQuadGroups 3 (s.data.dropWhile Char.isDigit)

/-- Python dict assignment `d[k] = v` on an insertion-ordered
association list: an existing key keeps its position and gets the new
value; a new key is appended at the end. -/
def dictSet {α : Type} : List (String × α) → String → α → List (String × α)
  | [], k, v => [(k, v)]
  | (k2, v2) :: rest, k, v =>
      if k2 = k then (k, v) :: rest else (k2, v2) :: dictSet rest k v

/-- Keys of an association-list dict, in insertion order. -/
def keysOf {α : Type} (d : List (String × α)) : List String := d.map Prod.fst

/-- The loop of `f_220` folded over the input list starting from an
arbitrary dict.  `resolve ip = some h` models `socket.gethostbyaddr(ip)[0]`
returning hostname `h`; `resolve ip = none` models the call raising
`socket.herror`/`socket.gaierror`, which the source catches and records
as `None`. -/
def resolveFold (resolve : String → Option String)
    (acc : List (String × Option String)) (ips : List String) :
    List (String × Option String) :=
  ips.foldl
    (fun hostnames ip =>
      if matchesDottedQuad ip then dictSet hostnames ip (resolve ip)
      else hostnames)
    acc

/-- Embedding of `f_220` from `src/data/clean/f_220_haolan_ratna_edit.py`:
iterate over the input list, and for each string matching the dotted-quad
regex store the resolution result (hostname or `None`) under that key. -/
def f_220 (resolve : String → Option String) (ip_addresses : List String) :
    List (String × Option String) :=
  resolveFold resolve [] ip_addresses

/-- Spec-side description of the output key order: the subsequence of the
input consisting of the first occurrence of every string matching the
dotted-quad pattern, in first-seen input order.  `seen` accumulates keys
already emitted. -/
def firstSeen : List String → List String → List String
  | _, [] => []
  | seen, ip :: rest =>
    if matchesDottedQuad ip then
      if ip ∈ seen then firstSeen seen rest
      else ip :: firstSeen (seen ++ [ip]) rest
    else firstSeen seen rest

lemma keysOf_dictSet {α : Type} (acc : List (String × α)) (k : String) (v : α) :
    keysOf (dictSet acc k v) =
      if k ∈ keysOf acc then keysOf acc else keysOf acc ++ [k] := by
  induction acc with
  | nil => simp [dictSet, keysOf]
  | cons p rest ih =>
    obtain ⟨k2, v2⟩ := p
    by_cases h : k2 = k
    · subst h
      simp [dictSet, keysOf]
    · have hne : ¬ k = k2 := fun hk => h hk.symm
      simp only [dictSet, if_neg h, keysOf, List.map_cons, List.mem_cons, hne, false_or]
      simp only [keysOf] at ih
      rw [ih]
      split_ifs <;> simp

lemma mem_dictSet {α : Type} (acc : List (String × α)) (k : String) (v : α) :
    ∀ p ∈ dictSet acc k v, p ∈ acc ∨ p = (k, v) := by
  induction acc with
  | nil => simp [dictSet]
  | cons q rest ih =>
    obtain ⟨k2, v2⟩ := q
    by_cases h : k2 = k
    · subst h
      simp only [dictSet, if_pos rfl]
      intro p hp
      rcases List.mem_cons.mp hp with h1 | h1
      · exact Or.inr h1
      · exact Or.inl (List.mem_cons_of_mem _ h1)
    · simp only [dictSet, if_neg h]
      intro p hp
      rcases List.mem_cons.mp hp with h1 | h1
      · exact Or.inl (h1 ▸ List.mem_cons_self _ _)
      · rcases ih p h1 with h2 | h2
        · exact Or.inl (List.mem_cons_of_mem _ h2)
        · exact Or.inr h2

lemma keysOf_resolveFold (resolve : String → Option String) (ips : List String) :
    ∀ acc, keysOf (resolveFold resolve acc ips) =
      keysOf acc ++ firstSeen (keysOf acc) ips := by
  induction ips with
  | nil => intro acc; simp [resolveFold, firstSeen]
  | cons ip rest ih =>
    intro acc
    by_cases hm : matchesDottedQuad ip = true
    · have hstep : resolveFold resolve acc (ip :: rest) =
          resolveFold resolve (dictSet acc ip (resolve ip)) rest := by
        simp [resolveFold, hm]
      by_cases hk : ip ∈ keysOf acc
      · rw [hstep, ih, keysOf_dictSet, if_pos hk]
        simp [firstSeen, hm, hk]
      · rw [hstep, ih, keysOf_dictSet, if_neg hk]
        simp [firstSeen, hm, hk]
    · have hstep : resolveFold resolve acc (ip :: rest) =
          resolveFold resolve acc rest := by
        simp [resolveFold, hm]
      rw [hstep, ih]
      simp [firstSeen, hm]

lemma mem_resolveFold (resolve : String → Option String) (ips : List String) :
    ∀ acc, ∀ p ∈ resolveFold resolve acc ips,
      p ∈ acc ∨ (p.1 ∈ ips ∧ matchesDottedQuad p.1 = true ∧ p.2 = resolve p.1) := by
  induction ips with
  | nil => intro acc p hp; exact Or.inl (by simpa [resolveFold] using hp)
  | cons ip rest ih =>
    intro acc p hp
    by_cases hm : matchesDottedQuad ip = true
    · have hp2 : p ∈ resolveFold resolve (dictSet acc ip (resolve ip)) rest := by
        simpa [resolveFold, hm] using hp
      rcases ih _ p hp2 with h1 | h1
      · rcases mem_dictSet acc ip (resolve ip) p h1 with h2 | h2
        · exact Or.inl h2
        · refine Or.inr ?_
          subst h2
          exact ⟨List.mem_cons_self _ _, hm, rfl⟩
      · exact Or.inr ⟨List.mem_cons_of_mem _ h1.1, h1.2.1, h1.2.2⟩
    · have hp2 : p ∈ resolveFold resolve acc rest := by
        simpa [resolveFold, hm] using hp
      rcases ih _ p hp2 with h1 | h1
      · exact Or.inl h1
      · exact Or.inr ⟨List.mem_cons_of_mem _ h1.1, h1.2.1, h1.2.2⟩

/-- C1: for every input list, every key of the dictionary returned by the
DNS resolver `f_220` is an element of the input that matches the
dotted-quad numeric pattern, its value is either a non-empty hostname
string or `None`, and the keys are exactly the matching inputs in
first-seen input order.  The hypothesis states the reverse-DNS contract
that a successfully resolved hostname is a non-empty string. -/
theorem f_220_result_spec (resolve : String → Option String) (ips : List String)
    (hres : ∀ ip s, resolve ip = some s → s ≠ "") :
    keysOf (f_220 resolve ips) = firstSeen [] ips ∧
    ∀ p ∈ f_220 resolve ips,
      p.1 ∈ ips ∧ matchesDottedQuad p.1 = true ∧
        (p.2 = none ∨ ∃ s, p.2 = some s ∧ s ≠ "") := by
  constructor
  · have h := keysOf_resolveFold resolve ips []
    simpa [f_220, keysOf] using h
  · intro p hp
    rcases mem_resolveFold resolve ips [] p hp with h1 | h1
    · simp at h1
    · refine ⟨h1.1, h1.2.1, ?_⟩
      rcases hv : resolve p.1 with _ | s
      · exact Or.inl (h1.2.2.trans hv)
      · exact Or.inr ⟨s, h1.2.2.trans hv, hres p.1 s hv⟩

/-- Concrete resolver used by the witness below: resolves `1.2.3.4`,
fails on everything else. -/
def wRes : String → Option String :=
  fun ip => if ip = "1.2.3.4" then some "dns.google" else none

/-- Witness for `f_220_result_spec` at a concrete resolver and input list
containing a matching string, a non-matching string, a duplicate, and a
matching string whose resolution fails. -/
theorem f_220_result_spec_witness :
    (∀ ip s, wRes ip = some s → s ≠ "") ∧
    (keysOf (f_220 wRes ["1.2.3.4", "nope", "1.2.3.4", "5.6.7.8"]) =
        firstSeen [] ["1.2.3.4", "nope", "1.2.3.4", "5.6.7.8"] ∧
      ∀ p ∈ f_220 wRes ["1.2.3.4", "nope", "1.2.3.4", "5.6.7.8"],
        p.1 ∈ ["1.2.3.4", "nope", "1.2.3.4", "5.6.7.8"] ∧
          matchesDottedQuad p.1 = true ∧
          (p.2 = none ∨ ∃ s, p.2 = some s ∧ s ≠ "")) := by
  have hres : ∀ ip s, wRes ip = some s → s ≠ "" := by
    intro ip s h
    unfold wRes at h
    by_cases hip : ip = "1.2.3.4"
    · rw [if_pos hip] at h
      cases h
      decide
    · rw [if_neg hip] at h
      cases h
  exact ⟨hres, f_220_result_spec wRes ["1.2.3.4", "nope", "1.2.3.4", "5.6.7.8"] hres⟩

end F220

namespace F493

/-- Python exception kinds raised by `task_func`. -/
inductive PyErr
  | typeError
  | valueError
deriving DecidableEq

/-- Python value passed inside the `teams` list: a string, or any
non-string object (tagged by a number). -/
inductive PyObj
  | str (s : String)
  | other (n : ℕ)
deriving DecidableEq

/-- Embedding of `isinstance(t, str)`. -/
def PyObj.isStr : PyObj → Bool
  | .str _ => true
  | .other _ => false

/-- String content of a `PyObj`; only used after the all-strings check,
so the `other` branch is unreachable there. -/
def PyObj.asString : PyObj → String
  | .str s => s
  | .other _ => ""

/-- The `teams` argument: a Python list of objects, or a non-list value
(which fails `isinstance(teams, list)`). -/
inductive TeamsArg
  | listArg (items : List PyObj)
  | notList
deriving DecidableEq

/-- Milliseconds per day; `days_diff = (current_time - start_time).days`
is the floor of the time difference in whole days. -/
def msPerDay : ℤ := 86400000

/-- Python dict key lookup-or-update inside an ordered association list,
embedding `performance_data[team][i] += performance`: the first entry
with the given key has its value transformed in place. -/
def dictModify {α : Type} : List (String × α) → String → (α → α) → List (String × α)
  | [], _, _ => []
  | (k2, v2) :: rest, k, f =>
      if k2 = k then (k2, f v2) :: rest else (k2, v2) :: dictModify rest k f

/-- Embedding of `lst[i] += v` on a Python list: replace position `i` by
its old value plus `v`. -/
def addAt (l : List ℚ) (i : ℕ) (v : ℚ) : List ℚ := l.set i (l.getD i 0 + v)

/-- Body of the inner `for team in teams` loop of `task_func`: draw the
next random value (`stream st.2`, advancing the draw counter) and add it
to day `i` of that team's list. -/
def innerStep (stream : ℕ → ℚ) (i : ℕ)
    (st : List (String × List ℚ) × ℕ) (nm : String) :
    List (String × List ℚ) × ℕ :=
  (dictModify st.1 nm (fun l => addAt l i (stream st.2)), st.2 + 1)

/-- Body of the outer `for i in range(days_diff)` loop of `task_func`. -/
def outerStep (stream : ℕ → ℚ) (names : List String)
    (st : List (String × List ℚ) × ℕ) (i : ℕ) :
    List (String × List ℚ) × ℕ :=
  names.foldl (innerStep stream i) st

/-- Embedding of `task_func` from `src/data/processed/493_wo_doc.py`.
`nowMs` is `datetime.now()` as epoch milliseconds; `stream k` is the
value of the `k`-th call to `random.uniform(0.1, 1)` after
`random.seed(random_seed)` (the seeded PRNG is modelled by this stream).
The returned matplotlib figure is outside the embedding; the returned
dictionary is modelled as an insertion-ordered association list.
Checks happen in source order: the teams type check first, then the
future-timestamp check, and only then are random values drawn. -/
def task_func (nowMs epochMs : ℤ) (teams : TeamsArg) (stream : ℕ → ℚ) :
    Except PyErr (List (String × List ℚ)) :=
  match teams with
  | .notList => .error .typeError
  | .listArg items =>
    if !(items.all PyObj.isStr) then .error .typeError
    else if (nowMs - epochMs).fdiv msPerDay < 0 then .error .valueError
    else
      .ok ((List.range ((nowMs - epochMs).fdiv msPerDay).toNat).foldl
        (outerStep stream (items.map PyObj.asString))
        ((items.map PyObj.asString).foldl
          (fun acc nm => F220.dictSet acc nm
            (List.replicate ((nowMs - epochMs).fdiv msPerDay).toNat (0 : ℚ)))
          [],
         0)).1

/-- Team `j`'s list after the first `m` days of the generation loop have
run (for pairwise-distinct team names): positions below `m` hold the
draw for that day, later positions still hold the initial `0`.  `d` is
`days_diff` and `n` the number of teams; day `i`, team `j` consumes draw
number `i * n + j`. -/
def valAfter (stream : ℕ → ℚ) (d n m j : ℕ) : List ℚ :=
  List.ofFn (fun i : Fin d => if (i : ℕ) < m then stream ((i : ℕ) * n + j) else 0)

lemma dictSet_notMem {α : Type} (acc : List (String × α)) (k : String) (v : α)
    (h : k ∉ F220.keysOf acc) :
    F220.dictSet acc k v = acc ++ [(k, v)] := by
  induction acc with
  | nil => simp [F220.dictSet]
  | cons p rest ih =>
    obtain ⟨k2, v2⟩ := p
    simp only [F220.keysOf, List.map_cons, List.mem_cons] at h
    push_neg at h
    have hne : k2 ≠ k := fun he => h.1 he.symm
    simp only [F220.dictSet, if_neg hne, List.cons_append, List.cons.injEq, true_and]
    exact ih h.2

lemma initDict_eq (d : ℕ) :
    ∀ (names : List String) (acc : List (String × List ℚ)),
      names.Nodup → (∀ nm ∈ names, nm ∉ F220.keysOf acc) →
      names.foldl
        (fun acc nm => F220.dictSet acc nm (List.replicate d (0 : ℚ))) acc
      = acc ++ names.map (fun nm => (nm, List.replicate d (0 : ℚ))) := by
  intro names
  induction names with
  | nil => intro acc _ _; simp
  | cons nm rest ih =>
    intro acc hnd hout
    have h1 : nm ∉ F220.keysOf acc := hout nm (List.mem_cons_self _ _)
    rw [List.foldl_cons, dictSet_notMem _ _ _ h1,
      ih _ (List.nodup_cons.mp hnd).2 ?_]
    · simp
    · intro x hx
      have hxacc : x ∉ F220.keysOf acc := hout x (List.mem_cons_of_mem _ hx)
      have hxnm : x ≠ nm := fun he => (List.nodup_cons.mp hnd).1 (he ▸ hx)
      have hkeys : F220.keysOf (acc ++ [(nm, List.replicate d (0 : ℚ))])
          = F220.keysOf acc ++ [nm] := by
        simp [F220.keysOf]
      rw [hkeys]
      simp [List.mem_append, hxacc, hxnm]

lemma dictModify_append {α : Type} (pre rest : List (String × α)) (k : String)
    (f : α → α) (h : k ∉ F220.keysOf pre) :
    dictModify (pre ++ rest) k f = pre ++ dictModify rest k f := by
  induction pre with
  | nil => simp
  | cons p pr ih =>
    obtain ⟨k2, v2⟩ := p
    simp only [F220.keysOf, List.map_cons, List.mem_cons] at h
    push_neg at h
    have hne : k2 ≠ k := fun he => h.1 he.symm
    simp only [List.cons_append, dictModify, if_neg hne, List.cons.injEq, true_and]
    exact ih h.2

lemma innerFold_eq (stream : ℕ → ℚ) (i : ℕ) (vals : ℕ → List ℚ) :
    ∀ (ns : List String) (pre : List (String × List ℚ)) (j0 c : ℕ),
      (F220.keysOf pre ++ ns).Nodup →
      ns.foldl (innerStep stream i)
        (pre ++ (List.enumFrom j0 ns).map (fun q => (q.2, vals q.1)), c + j0)
      = (pre ++ (List.enumFrom j0 ns).map
            (fun q => (q.2, addAt (vals q.1) i (stream (c + q.1)))),
         c + j0 + ns.length) := by
  intro ns
  induction ns with
  | nil => intro pre j0 c _; simp
  | cons nm rest ih =>
    intro pre j0 c hnd
    have hsplit := List.nodup_append.mp hnd
    have hnm_pre : nm ∉ F220.keysOf pre := fun hmem =>
      hsplit.2.2 hmem (List.mem_cons_self _ _)
    have hnm_rest : nm ∉ rest := (List.nodup_cons.mp hsplit.2.1).1
    rw [List.enumFrom_cons, List.map_cons, List.foldl_cons]
    have hstep : innerStep stream i
        (pre ++ ((j0, nm).2, vals (j0, nm).1) ::
          (List.enumFrom (j0 + 1) rest).map (fun q => (q.2, vals q.1)), c + j0) nm
        = (pre ++ ((nm, addAt (vals j0) i (stream (c + j0))) ::
            (List.enumFrom (j0 + 1) rest).map (fun q => (q.2, vals q.1))),
           c + j0 + 1) := by
      simp only [innerStep]
      rw [dictModify_append _ _ _ _ hnm_pre]
      simp [dictModify]
    rw [hstep]
    have hpre2 : (pre ++ [(nm, addAt (vals j0) i (stream (c + j0)))]) ++
        (List.enumFrom (j0 + 1) rest).map (fun q => (q.2, vals q.1))
        = pre ++ ((nm, addAt (vals j0) i (stream (c + j0))) ::
            (List.enumFrom (j0 + 1) rest).map (fun q => (q.2, vals q.1))) := by
      simp
    have hnd2 : (F220.keysOf (pre ++ [(nm, addAt (vals j0) i (stream (c + j0)))])
        ++ rest).Nodup := by
      have : F220.keysOf (pre ++ [(nm, addAt (vals j0) i (stream (c + j0)))])
          ++ rest = F220.keysOf pre ++ (nm :: rest) := by
        simp [F220.keysOf]
      rw [this]
      exact hnd
    have hc : c + j0 + 1 = c + (j0 + 1) := by omega
    rw [← hpre2, hc, ih _ (j0 + 1) c hnd2, Prod.mk.injEq]
    constructor
    · simp
    · simp only [List.length_cons]
      omega

lemma keysOf_enumMap (g : ℕ → List ℚ) :
    ∀ (ns : List String) (j0 : ℕ),
      F220.keysOf ((List.enumFrom j0 ns).map (fun q => (q.2, g q.1))) = ns := by
  intro ns
  induction ns with
  | nil => intro j0; simp [F220.keysOf]
  | cons nm rest ih =>
    intro j0
    rw [List.enumFrom_cons, List.map_cons]
    simp only [F220.keysOf, List.map_cons, List.cons.injEq]
    exact ⟨trivial, ih (j0 + 1)⟩

lemma enumMap_const (v0 : List ℚ) :
    ∀ (ns : List String) (j0 : ℕ),
      (List.enumFrom j0 ns).map (fun q => (q.2, v0))
        = ns.map (fun nm => (nm, v0)) := by
  intro ns
  induction ns with
  | nil => intro j0; simp
  | cons nm rest ih =>
    intro j0
    rw [List.enumFrom_cons, List.map_cons, List.map_cons, ih (j0 + 1)]

lemma addAt_valAfter (stream : ℕ → ℚ) (d n m j : ℕ) (hm : m < d) :
    addAt (valAfter stream d n m j) m (stream (m * n + j))
      = valAfter stream d n (m + 1) j := by
  have hgetD : (valAfter stream d n m j).getD m 0 = 0 := by
    rw [valAfter, List.getD_eq_getElem _ _ (by simpa using hm), List.getElem_ofFn]
    simp
  rw [addAt, hgetD, zero_add, valAfter, valAfter]
  refine List.ext_getElem (by simp) ?_
  intro t h1 h2
  have htd : t < d := by simpa using h2
  rw [List.getElem_set]
  by_cases hmt : m = t
  · subst hmt
    rw [if_pos rfl, List.getElem_ofFn]
    simp
  · rw [if_neg hmt, List.getElem_ofFn, List.getElem_ofFn]
    simp only [Fin.val_mk]
    by_cases hlt : t < m
    · rw [if_pos hlt, if_pos (by omega)]
    · rw [if_neg hlt, if_neg (by omega)]

lemma outerFold_eq (stream : ℕ → ℚ) (names : List String) (d : ℕ)
    (hnd : names.Nodup) :
    ∀ m, m ≤ d →
      (List.range m).foldl (outerStep stream names)
          (names.map (fun nm => (nm, List.replicate d (0 : ℚ))), 0)
      = ((List.enumFrom 0 names).map
            (fun q => (q.2, valAfter stream d names.length m q.1)),
         m * names.length) := by
  intro m
  induction m with
  | zero =>
    intro _
    have hval : ∀ j, valAfter stream d names.length 0 j = List.replicate d (0 : ℚ) := by
      intro j
      rw [valAfter, ← List.ofFn_const d (0 : ℚ)]
      congr 1
    simp only [List.range_zero, List.foldl_nil]
    rw [show ((List.enumFrom 0 names).map
        (fun q => (q.2, valAfter stream d names.length 0 q.1)))
        = (List.enumFrom 0 names).map (fun q => (q.2, List.replicate d (0 : ℚ))) from by
      apply List.map_congr_left
      intro q _
      rw [hval q.1]]
    rw [enumMap_const]
    simp
  | succ m ih =>
    intro hmd
    have hm : m < d := hmd
    rw [List.range_succ, List.foldl_append, ih (by omega), List.foldl_cons,
      List.foldl_nil]
    have happ : ∀ z : List (String × List ℚ) × ℕ, outerStep stream names z m
        = names.foldl (innerStep stream m) z := fun _ => rfl
    rw [happ]
    have hkeys : (F220.keysOf ([] : List (String × List ℚ)) ++ names).Nodup := by
      simpa [F220.keysOf] using hnd
    have hinner := innerFold_eq stream m (valAfter stream d names.length m)
      names [] 0 (m * names.length) hkeys
    simp only [List.nil_append, Nat.add_zero] at hinner
    rw [hinner, Prod.mk.injEq]
    constructor
    · apply List.map_congr_left
      intro q _
      rw [addAt_valAfter stream d names.length m q.1 hm]
    · ring

/-- Counterexample input to the literal reading of C2: the start
timestamp is one day in the future AND the teams argument is not a list
of strings; the source raises `TypeError` (the type check runs first),
not `ValueError`. -/
theorem task_func_future_typeerror_counterexample :
    (0 : ℤ) < 86400000 ∧
    task_func 0 86400000 (TeamsArg.listArg [PyObj.other 0]) (fun _ => 0) =
      Except.error PyErr.typeError ∧
    task_func 0 86400000 (TeamsArg.listArg [PyObj.other 0]) (fun _ => 0) ≠
      Except.error PyErr.valueError := by
  refine ⟨by norm_num, rfl, ?_⟩
  intro h
  rw [show task_func 0 86400000 (TeamsArg.listArg [PyObj.other 0]) (fun _ => 0)
      = Except.error PyErr.typeError from rfl] at h
  simp at h

/-- C2 (amended): for every timestamp, a non-list or non-all-strings
teams argument raises `TypeError`; a future start timestamp raises
`ValueError` whenever the teams argument is a valid list of strings
(the type check runs first, so it wins when both are violated); in all
these cases the result does not depend on the random stream, i.e. the
error is raised before any random performance value is generated. -/
theorem task_func_validation_spec (nowMs epochMs : ℤ)
    (itemsBad itemsOk : List PyObj) (stream stream2 : ℕ → ℚ)
    (hbad : ∃ o ∈ itemsBad, o.isStr = false)
    (hok : ∀ o ∈ itemsOk, o.isStr = true) :
    task_func nowMs epochMs TeamsArg.notList stream = Except.error PyErr.typeError ∧
    task_func nowMs epochMs TeamsArg.notList stream =
      task_func nowMs epochMs TeamsArg.notList stream2 ∧
    task_func nowMs epochMs (TeamsArg.listArg itemsBad) stream =
      Except.error PyErr.typeError ∧
    task_func nowMs epochMs (TeamsArg.listArg itemsBad) stream =
      task_func nowMs epochMs (TeamsArg.listArg itemsBad) stream2 ∧
    (nowMs < epochMs →
      task_func nowMs epochMs (TeamsArg.listArg itemsOk) stream =
        Except.error PyErr.valueError ∧
      task_func nowMs epochMs (TeamsArg.listArg itemsOk) stream =
        task_func nowMs epochMs (TeamsArg.listArg itemsOk) stream2) := by
  have hallbad : itemsBad.all PyObj.isStr = false := by
    rw [List.all_eq_false]
    obtain ⟨o, ho, hf⟩ := hbad
    exact ⟨o, ho, by simp [hf]⟩
  have hallok : itemsOk.all PyObj.isStr = true := by
    rw [List.all_eq_true]
    exact hok
  refine ⟨rfl, rfl, ?_, ?_, ?_⟩
  · simp [task_func, hallbad]
  · simp [task_func, hallbad]
  · intro hfut
    have hdd : (nowMs - epochMs).fdiv msPerDay < 0 := by
      rw [Int.fdiv_eq_ediv _ (by norm_num [msPerDay])]
      exact Int.ediv_neg' (by omega) (by norm_num [msPerDay])
    exact ⟨by simp [task_func, hallok, if_pos hdd],
      by simp [task_func, hallok, if_pos hdd]⟩

/-- Witness for `task_func_validation_spec` at concrete arguments: now
is epoch 0 ms, start is one millisecond in the future, the bad teams
list holds one non-string, the good one holds one string. -/
theorem task_func_validation_spec_witness :
    (∃ o ∈ [PyObj.other 0], o.isStr = false) ∧
    (∀ o ∈ [PyObj.str "A"], o.isStr = true) ∧
    (task_func 0 1 TeamsArg.notList (fun _ => 0) = Except.error PyErr.typeError ∧
     task_func 0 1 TeamsArg.notList (fun _ => 0) =
       task_func 0 1 TeamsArg.notList (fun _ => 1) ∧
     task_func 0 1 (TeamsArg.listArg [PyObj.other 0]) (fun _ => 0) =
       Except.error PyErr.typeError ∧
     task_func 0 1 (TeamsArg.listArg [PyObj.other 0]) (fun _ => 0) =
       task_func 0 1 (TeamsArg.listArg [PyObj.other 0]) (fun _ => 1) ∧
     ((0 : ℤ) < 1 →
       task_func 0 1 (TeamsArg.listArg [PyObj.str "A"]) (fun _ => 0) =
         Except.error PyErr.valueError ∧
       task_func 0 1 (TeamsArg.listArg [PyObj.str "A"]) (fun _ => 0) =
         task_func 0 1 (TeamsArg.listArg [PyObj.str "A"]) (fun _ => 1))) := by
  refine ⟨⟨PyObj.other 0, by simp, by simp [PyObj.isStr]⟩,
    by simp [PyObj.isStr], ?_⟩
  exact task_func_validation_spec 0 1 [PyObj.other 0] [PyObj.str "A"]
    (fun _ => 0) (fun _ => 1)
    ⟨PyObj.other 0, by simp, by simp [PyObj.isStr]⟩
    (by simp [PyObj.isStr])

end F493

namespace F493

/-- C3 (amended): for every non-future start timestamp and every valid
team list with pairwise-distinct names, `task_func` returns a mapping
with exactly one entry per team in input order; each entry's value has
length equal to the whole-day difference between start and now, and
every element is a draw of `random.uniform(0.1, 1)`, hence lies in
`[0.1, 1]` whenever the stream does. -/
theorem task_func_valid_output_spec (nowMs epochMs : ℤ) (names : List String)
    (stream : ℕ → ℚ) (hnd : names.Nodup) (hpast : epochMs ≤ nowMs)
    (hs : ∀ k, 1/10 ≤ stream k ∧ stream k ≤ 1) :
    ∃ dict,
      task_func nowMs epochMs (TeamsArg.listArg (names.map PyObj.str)) stream
        = Except.ok dict ∧
      dict.map Prod.fst = names ∧
      ∀ p ∈ dict,
        p.2.length = ((nowMs - epochMs).fdiv msPerDay).toNat ∧
        ∀ v ∈ p.2, 1/10 ≤ v ∧ v ≤ 1 := by
  have hall : (names.map PyObj.str).all PyObj.isStr = true := by
    rw [List.all_eq_true]
    intro o ho
    rcases List.mem_map.mp ho with ⟨s, _, rfl⟩
    rfl
  have hdd0 : ¬ ((nowMs - epochMs).fdiv msPerDay < 0) := by
    push_neg
    exact Int.fdiv_nonneg (by omega) (by norm_num [msPerDay])
  have hnames : (names.map PyObj.str).map PyObj.asString = names := by
    rw [List.map_map]
    simp [Function.comp_def, PyObj.asString]
  have hrun : task_func nowMs epochMs (TeamsArg.listArg (names.map PyObj.str)) stream
      = Except.ok
        ((List.range ((nowMs - epochMs).fdiv msPerDay).toNat).foldl
          (outerStep stream names)
          (names.foldl
            (fun acc nm => F220.dictSet acc nm
              (List.replicate ((nowMs - epochMs).fdiv msPerDay).toNat (0 : ℚ)))
            [],
           0)).1 := by
    simp only [task_func, hall, Bool.not_true, if_neg hdd0, hnames]
    rfl
  rw [hrun, initDict_eq _ names [] hnd (by simp [F220.keysOf]), List.nil_append,
    outerFold_eq stream names _ hnd _ (le_refl _)]
  refine ⟨_, rfl, ?_, ?_⟩
  · exact keysOf_enumMap _ names 0
  · intro p hp
    rcases List.mem_map.mp hp with ⟨q, _, rfl⟩
    constructor
    · simp [valAfter]
    · intro v hv
      simp only [valAfter] at hv
      rcases (List.mem_ofFn _ _).mp hv with ⟨i, hi⟩
      have hlt : (i : ℕ) < ((nowMs - epochMs).fdiv msPerDay).toNat := i.isLt
      rw [← hi]
      simp only [hlt, if_true]
      exact hs _

end F493

namespace F493

/-- Counterexample input to the literal reading of C3: a valid team list
with a duplicate name (`["A", "A"]`), a start timestamp exactly one day
in the past, and an in-range random stream constantly `9/10`.  The
returned mapping has a single entry (not one per team), and its day-0
value is `9/10 + 9/10 = 9/5 > 1`, outside `[0.1, 1]`: the duplicate key
collapses in the dict and receives two random increments per day. -/
theorem task_func_duplicate_teams_counterexample :
    ((1 : ℚ)/10 ≤ 9/10 ∧ (9 : ℚ)/10 ≤ 1) ∧
    [PyObj.str "A", PyObj.str "A"].all PyObj.isStr = true ∧
    (0 : ℤ) ≤ 86400000 ∧
    task_func 86400000 0 (TeamsArg.listArg [PyObj.str "A", PyObj.str "A"])
      (fun _ => 9/10) = Except.ok [("A", [9/5])] ∧
    ([PyObj.str "A", PyObj.str "A"].length = 2 ∧
      ([("A", [(9 : ℚ)/5])] : List (String × List ℚ)).length = 1) ∧
    ¬ ((9 : ℚ)/5 ≤ 1) := by
  refine ⟨⟨by norm_num, by norm_num⟩, rfl, by norm_num, ?_, ⟨rfl, rfl⟩, by norm_num⟩
  have h1 : ((86400000 : ℤ) - 0).fdiv msPerDay = 1 := by decide
  have h2 : task_func 86400000 0 (TeamsArg.listArg [PyObj.str "A", PyObj.str "A"])
      (fun _ => 9/10)
      = Except.ok ((List.range 1).foldl
          (outerStep (fun _ => 9/10) ["A", "A"])
          (["A", "A"].foldl
            (fun acc nm => F220.dictSet acc nm (List.replicate 1 (0 : ℚ))) [],
           0)).1 := by
    simp only [task_func, h1, PyObj.asString, List.map_cons, List.map_nil]
    rfl
  rw [h2]
  show Except.ok ((outerStep (fun _ => (9 : ℚ)/10) ["A", "A"]
      ([("A", [0])], 0) 0)).1 = _
  simp only [outerStep, innerStep, List.foldl_cons, List.foldl_nil, dictModify,
    if_pos rfl, addAt, List.getD]
  norm_num

/-- Witness for `task_func_valid_output_spec`: two distinct team names,
start two days in the past, constant stream `1/2`. -/
theorem task_func_valid_output_spec_witness :
    (["A", "B"] : List String).Nodup ∧
    (0 : ℤ) ≤ 172800000 ∧
    (∀ k : ℕ, (1 : ℚ)/10 ≤ (fun _ : ℕ => (1 : ℚ)/2) k ∧
        (fun _ : ℕ => (1 : ℚ)/2) k ≤ 1) ∧
    (∃ dict,
      task_func 172800000 0 (TeamsArg.listArg (["A", "B"].map PyObj.str))
          (fun _ => 1/2) = Except.ok dict ∧
      dict.map Prod.fst = ["A", "B"] ∧
      ∀ p ∈ dict,
        p.2.length = (((172800000 : ℤ) - 0).fdiv msPerDay).toNat ∧
        ∀ v ∈ p.2, 1/10 ≤ v ∧ v ≤ 1) := by
  refine ⟨by decide, by norm_num, fun k => ⟨by norm_num, by norm_num⟩, ?_⟩
  exact task_func_valid_output_spec 172800000 0 ["A", "B"] (fun _ => 1/2)
    (by decide) (by norm_num) (fun k => ⟨by norm_num, by norm_num⟩)

end F493

namespace F410

/-- The four fixed vehicle categories of the traffic generator. -/
def VEHICLE_TYPES : List String := ["Car", "Bus", "Truck", "Bike"]

/-- One CSV cell: a string (timestamp or header label) or a number. -/
inductive CsvCell
  | str (s : String)
  | num (n : ℕ)
deriving DecidableEq

/-- Embedding of `os.path.join(dir, name)` for the used case of a
relative file name under a directory. -/
def joinPath (a b : String) : String :=
  if a = "" then b else if a.endsWith "/" then a ++ b else a ++ "/" ++ b

/-- Observable outcome of one `f_410` call: the path written, the rows
written to the CSV file (header row first), and the returned plot
handle (`none` models the Python `None` returned for an empty table;
`some ()` stands for the matplotlib axes object, whose rendering is
outside the embedding). -/
structure TrafficResult where
  filePath : String
  fileRows : List (List CsvCell)
  plot : Option Unit
deriving DecidableEq

/-- Embedding of `f_410` from `src/data/processed/f_456_ming_wo_doc.py`.
`nowStr i` is the timestamp string produced by `datetime.now()` in hour
row `i`; `rand k` is the value of the `k`-th call to `randint(0, 50)`
(four calls per row, one per vehicle type, in row-major call order).
The file is written with a header row followed by one row per hour;
`pd.read_csv` reads it back treating the first row as the header, so
the reloaded table is empty exactly when no hour rows were written. -/
def f_410 (hours : ℕ) (output_dir : String) (nowStr : ℕ → String)
    (rand : ℕ → ℕ) : TrafficResult :=
  let FILE_PATH := joinPath output_dir "traffic_data.csv"
  let data : List (List CsvCell) :=
    (CsvCell.str "Time" :: VEHICLE_TYPES.map CsvCell.str) ::
      (List.range hours).map (fun i =>
        CsvCell.str (nowStr i) ::
          (List.range VEHICLE_TYPES.length).map
            (fun j => CsvCell.num (rand (VEHICLE_TYPES.length * i + j))))
  if data.tail.isEmpty then ⟨FILE_PATH, data, none⟩
  else ⟨FILE_PATH, data, some ()⟩

/-- C5: for every hour count, the CSV file consists of the header row
`Time,Car,Bus,Truck,Bike` followed by exactly one row per hour, each row
a timestamp cell followed by four numeric cells in `[0, 50]`; the file
path is the fixed name under the output directory, and an hour count of
0 yields an absent plot. -/
theorem f_410_csv_spec (hours : ℕ) (output_dir : String) (nowStr : ℕ → String)
    (rand : ℕ → ℕ) (hr : ∀ k, rand k ≤ 50) :
    (f_410 hours output_dir nowStr rand).filePath
        = joinPath output_dir "traffic_data.csv" ∧
    ∃ rows,
      (f_410 hours output_dir nowStr rand).fileRows
          = (CsvCell.str "Time" :: VEHICLE_TYPES.map CsvCell.str) :: rows ∧
      rows.length = hours ∧
      (∀ row ∈ rows, ∃ (t : String) (cs : List ℕ),
        row = CsvCell.str t :: cs.map CsvCell.num ∧
        cs.length = 4 ∧ ∀ c ∈ cs, c ≤ 50) ∧
      (hours = 0 → (f_410 hours output_dir nowStr rand).plot = none) := by
  have hsplit : ∀ s : TrafficResult,
      (f_410 hours output_dir nowStr rand) = s →
      s.filePath = joinPath output_dir "traffic_data.csv" ∧
      s.fileRows = (CsvCell.str "Time" :: VEHICLE_TYPES.map CsvCell.str) ::
        (List.range hours).map (fun i =>
          CsvCell.str (nowStr i) ::
            (List.range VEHICLE_TYPES.length).map
              (fun j => CsvCell.num (rand (VEHICLE_TYPES.length * i + j)))) ∧
      (hours = 0 → s.plot = none) := by
    intro s hs
    rw [← hs]
    unfold f_410
    by_cases h0 : hours = 0
    · subst h0
      simp
    · rw [if_neg (by simp [List.isEmpty_iff, h0])]
      exact ⟨rfl, rfl, fun h => absurd h h0⟩
  obtain ⟨hpath, hrows, hplot⟩ := hsplit _ rfl
  refine ⟨hpath, _, hrows, by simp, ?_, hplot⟩
  intro row hrow
  rcases List.mem_map.mp hrow with ⟨i, _, rfl⟩
  refine ⟨nowStr i, (List.range VEHICLE_TYPES.length).map
      (fun j => rand (VEHICLE_TYPES.length * i + j)), ?_, by simp [VEHICLE_TYPES], ?_⟩
  · rw [List.map_map]
    rfl
  · intro c hc
    rcases List.mem_map.mp hc with ⟨j, _, rfl⟩
    exact hr _

/-- Witness for `f_410_csv_spec` with two hours, a fixed timestamp
string, and the constant draw 25. -/
theorem f_410_csv_spec_witness :
    (∀ k : ℕ, (fun _ : ℕ => 25) k ≤ 50) ∧
    ((f_410 2 "./output" (fun _ => "t") (fun _ => 25)).filePath
        = joinPath "./output" "traffic_data.csv" ∧
      ∃ rows,
        (f_410 2 "./output" (fun _ => "t") (fun _ => 25)).fileRows
            = (CsvCell.str "Time" :: VEHICLE_TYPES.map CsvCell.str) :: rows ∧
        rows.length = 2 ∧
        (∀ row ∈ rows, ∃ (t : String) (cs : List ℕ),
          row = CsvCell.str t :: cs.map CsvCell.num ∧
          cs.length = 4 ∧ ∀ c ∈ cs, c ≤ 50) ∧
        (2 = 0 → (f_410 2 "./output" (fun _ => "t") (fun _ => 25)).plot = none)) := by
  exact ⟨fun _ => by norm_num,
    f_410_csv_spec 2 "./output" (fun _ => "t") (fun _ => 25) (fun _ => by norm_num)⟩

end F410


namespace F235

/-- Defaulted indexing commutes with `map` at in-range indices. -/
lemma getD_map_eq {A B : Type} (l : List A) (f : A -> B) (i : Nat) (d1 : B)
    (d2 : A) (hi : i < l.length) : (l.map f).getD i d1 = f (l.getD i d2) := by
  rw [List.getD_eq_getElem _ _ (by simpa using hi), List.getD_eq_getElem _ _ hi]
  exact List.getElem_map f


/-- Column mean, embedding the mean used by `scipy.stats.zscore`. -/
noncomputable def colMean (col : List ℝ) : ℝ := col.sum / col.length

/-- Population variance (`ddof=0`), as used by `scipy.stats.zscore`. -/
noncomputable def colVar (col : List ℝ) : ℝ :=
  ((col.map (fun x => (x - colMean col) ^ 2)).sum) / col.length

/-- Population standard deviation. -/
noncomputable def colStd (col : List ℝ) : ℝ := Real.sqrt (colVar col)

/-- Embedding of `stats.zscore` on one column, composed with
`fillna(0.0)`: for a zero-variance column every float entry is
`0/0 = NaN`, which `fillna` maps to `0`; in the real-number embedding
`(x - mean)/0 = 0` directly, so the two agree. -/
noncomputable def zscoreCol (col : List ℝ) : List ℝ :=
  col.map (fun x => (x - colMean col) / colStd col)

/-- Embedding of `f_235` from `src/data/processed/f_467_ming_w_doc.py`:
`pd.DataFrame(matrix).apply(stats.zscore).fillna(0.0)`, with the
DataFrame represented by its list of columns (`apply` maps `zscore`
over columns). -/
noncomputable def f_235 (df : List (List ℝ)) : List (List ℝ) := df.map zscoreCol

lemma sum_map_sub (l : List ℝ) (f g : ℝ → ℝ) :
    (l.map (fun x => f x - g x)).sum = (l.map f).sum - (l.map g).sum := by
  induction l with
  | nil => simp
  | cons a t ih =>
    simp only [List.map_cons, List.sum_cons, ih]
    ring

lemma sum_map_div (l : List ℝ) (f : ℝ → ℝ) (c : ℝ) :
    (l.map (fun x => f x / c)).sum = (l.map f).sum / c := by
  induction l with
  | nil => simp
  | cons a t ih =>
    simp only [List.map_cons, List.sum_cons, ih]
    ring

lemma sum_of_const (l : List ℝ) (c : ℝ) (h : ∀ x ∈ l, x = c) :
    l.sum = l.length * c := by
  induction l with
  | nil => simp
  | cons a t ih =>
    have ha : a = c := h a (List.mem_cons_self _ _)
    have ht : t.sum = t.length * c := ih (fun x hx => h x (List.mem_cons_of_mem _ hx))
    simp only [List.sum_cons, List.length_cons, ha, ht]
    push_cast
    ring

lemma length_cast_ne_zero (col : List ℝ) (h : col ≠ []) : (col.length : ℝ) ≠ 0 := by
  have : 0 < col.length := List.length_pos.mpr h
  positivity

lemma sum_sub_mean (col : List ℝ) (h : col ≠ []) :
    (col.map (fun x => x - colMean col)).sum = 0 := by
  rw [sum_map_sub]
  have h1 : col.map (fun x => x) = col := List.map_id _
  have h2 : (col.map (fun _ => colMean col)).sum = col.length * colMean col := by
    have h3 := sum_of_const (col.map (fun _ => colMean col)) (colMean col)
      (by intro x hx; rcases List.mem_map.mp hx with ⟨y, _, rfl⟩; rfl)
    simp only [List.length_map] at h3
    exact h3
  have hn : (col.length : ℝ) ≠ 0 := length_cast_ne_zero col h
  rw [h1, h2, colMean, mul_comm, div_mul_cancel₀ _ hn, sub_self]

lemma sum_sq_nonneg (col : List ℝ) :
    0 ≤ (col.map (fun x => (x - colMean col) ^ 2)).sum := by
  apply List.sum_nonneg
  intro x hx
  rcases List.mem_map.mp hx with ⟨y, _, rfl⟩
  positivity

lemma sum_sq_pos (col : List ℝ) (a b : ℝ) (ha : a ∈ col) (hb : b ∈ col)
    (hab : a ≠ b) :
    0 < (col.map (fun x => (x - colMean col) ^ 2)).sum := by
  rcases lt_or_eq_of_le (sum_sq_nonneg col) with h | h
  · exact h
  · exfalso
    have hzero : ∀ x ∈ col, x = colMean col := by
      intro x hx
      have hmem : (x - colMean col) ^ 2 ∈ col.map (fun x => (x - colMean col) ^ 2) :=
        List.mem_map.mpr ⟨x, hx, rfl⟩
      have hle : (x - colMean col) ^ 2 ≤ 0 := by
        rw [h]
        apply List.single_le_sum _ _ hmem
        intro y hy
        rcases List.mem_map.mp hy with ⟨z, _, rfl⟩
        positivity
      have : (x - colMean col) ^ 2 = 0 := le_antisymm hle (by positivity)
      have := pow_eq_zero_iff (n := 2) (by norm_num) |>.mp this
      linarith
    exact hab ((hzero a ha).trans (hzero b hb).symm)

lemma zscoreCol_const (col : List ℝ) (h : ∀ a ∈ col, ∀ b ∈ col, a = b) :
    ∀ y ∈ zscoreCol col, y = 0 := by
  intro y hy
  rcases List.mem_map.mp hy with ⟨x, hx, rfl⟩
  have hne : col ≠ [] := List.ne_nil_of_mem hx
  have hn : (col.length : ℝ) ≠ 0 := length_cast_ne_zero col hne
  have hsum : col.sum = col.length * x :=
    sum_of_const _ _ (fun z hz => h z hz x hx)
  have hμ : colMean col = x := by
    rw [colMean, hsum, mul_comm, mul_div_assoc, div_self hn, mul_one]
  rw [hμ, sub_self, zero_div]

lemma zscoreCol_mean (col : List ℝ) (hne : col ≠ []) :
    colMean (zscoreCol col) = 0 := by
  have hmap : zscoreCol col
      = col.map (fun x => (fun z => z - colMean col) x / colStd col) := rfl
  rw [colMean, hmap, sum_map_div, sum_sub_mean col hne]
  simp

lemma zscoreCol_std (col : List ℝ) (a b : ℝ) (ha : a ∈ col) (hb : b ∈ col)
    (hab : a ≠ b) :
    colStd (zscoreCol col) = 1 := by
  have hne : col ≠ [] := List.ne_nil_of_mem ha
  have hn : (col.length : ℝ) ≠ 0 := length_cast_ne_zero col hne
  have hS : 0 < (col.map (fun x => (x - colMean col) ^ 2)).sum :=
    sum_sq_pos col a b ha hb hab
  have hV : 0 < colVar col := by
    rw [colVar]
    have : 0 < col.length := List.length_pos.mpr hne
    positivity
  have hσ2 : colStd col ^ 2 = colVar col := Real.sq_sqrt hV.le
  have hσ : colStd col ≠ 0 := by
    intro h0
    rw [h0] at hσ2
    have hv0 : colVar col = 0 := by simpa using hσ2.symm
    exact (ne_of_gt hV) hv0
  have hlen : (zscoreCol col).length = col.length := by simp [zscoreCol]
  have hmean0 : colMean (zscoreCol col) = 0 := zscoreCol_mean col hne
  have hsq : (zscoreCol col).map (fun y => (y - colMean (zscoreCol col)) ^ 2)
      = col.map (fun x => (fun z => (z - colMean col) ^ 2) x / colStd col ^ 2) := by
    rw [hmean0, zscoreCol, List.map_map]
    apply List.map_congr_left
    intro x _
    simp only [Function.comp_apply]
    rw [sub_zero, div_pow]
  have hvar1 : colVar (zscoreCol col) = 1 := by
    rw [colVar, hlen, hsq, sum_map_div]
    rw [hσ2, colVar]
    field_simp
  rw [colStd, hvar1, Real.sqrt_one]

/-- C6: for every numeric matrix (given by its columns), the normalizer
`f_235` returns a table of the same shape; every column that was not
constant has output mean 0 and population standard deviation 1, and
every constant column becomes all zeros (the undefined values from
zero-variance columns being replaced by zero). -/
theorem f_235_normalization_spec (df : List (List ℝ)) (i : ℕ)
    (hi : i < df.length) :
    (f_235 df).length = df.length ∧
    ((f_235 df).getD i []).length = (df.getD i []).length ∧
    ((∃ a ∈ df.getD i [], ∃ b ∈ df.getD i [], a ≠ b) →
      colMean ((f_235 df).getD i []) = 0 ∧ colStd ((f_235 df).getD i []) = 1) ∧
    ((∀ a ∈ df.getD i [], ∀ b ∈ df.getD i [], a = b) →
      ∀ y ∈ (f_235 df).getD i [], y = 0) := by
  have hgot : (f_235 df).getD i [] = zscoreCol (df.getD i []) := by
    exact getD_map_eq df zscoreCol i [] [] hi
  refine ⟨by simp [f_235], ?_, ?_, ?_⟩
  · rw [hgot]
    simp [zscoreCol]
  · rintro ⟨a, ha, b, hb, hab⟩
    rw [hgot]
    exact ⟨zscoreCol_mean _ (List.ne_nil_of_mem ha),
      zscoreCol_std _ a b ha hb hab⟩
  · intro hconst
    rw [hgot]
    exact zscoreCol_const _ hconst

/-- Witness for `f_235_normalization_spec` on the one-column matrix
whose column is `[0, 2]` (non-constant, mean 1, variance 1). -/
theorem f_235_normalization_spec_witness :
    (0 < ([[(0 : ℝ), 2]] : List (List ℝ)).length) ∧
    ((f_235 [[(0 : ℝ), 2]]).length = ([[(0 : ℝ), 2]] : List (List ℝ)).length ∧
      ((f_235 [[(0 : ℝ), 2]]).getD 0 []).length
        = (([[(0 : ℝ), 2]] : List (List ℝ)).getD 0 []).length ∧
      ((∃ a ∈ ([[(0 : ℝ), 2]] : List (List ℝ)).getD 0 [],
          ∃ b ∈ ([[(0 : ℝ), 2]] : List (List ℝ)).getD 0 [], a ≠ b) →
        colMean ((f_235 [[(0 : ℝ), 2]]).getD 0 []) = 0 ∧
        colStd ((f_235 [[(0 : ℝ), 2]]).getD 0 []) = 1) ∧
      ((∀ a ∈ ([[(0 : ℝ), 2]] : List (List ℝ)).getD 0 [],
          ∀ b ∈ ([[(0 : ℝ), 2]] : List (List ℝ)).getD 0 [], a = b) →
        ∀ y ∈ (f_235 [[(0 : ℝ), 2]]).getD 0 [], y = 0)) := by
  exact ⟨by norm_num, f_235_normalization_spec [[(0 : ℝ), 2]] 0 (by norm_num)⟩

end F235

namespace F391

/-- The constant `RANGE = (1, 100)` of the random-matrix task. -/
def RANGE : ℕ × ℕ := (1, 100)

/-- Embedding of `f_391` from `src/data/processed/f_481_ming_w_doc.py`:
row count is `L[0][0] * L[0][1]`, column count is `L[1][0] * L[1][1]`,
and the DataFrame holds `np.random.randint(RANGE[0], RANGE[1])` draws,
modelled by the stream `rand` consumed in row-major order.  (The source
indexes `L` directly and would raise `IndexError` on shorter inputs;
the embedding uses defaulted indexing, which agrees on every
pair-of-pairs input.) -/
def f_391 (L : List (List ℕ)) (rand : ℕ → ℕ) : List (List ℕ) :=
  let rows := (L.getD 0 []).getD 0 0 * (L.getD 0 []).getD 1 0
  let columns := (L.getD 1 []).getD 0 0 * (L.getD 1 []).getD 1 0
  (List.range rows).map (fun i =>
    (List.range columns).map (fun j => rand (columns * i + j)))

/-- C7: for every pairs-of-pairs input `[[a,b],[c,d]]`, the table has
`a*b` rows and `c*d` columns, and every value is in `[1, 100)` whenever
every draw of `randint(1, 100)` is. -/
theorem f_391_shape_range_spec (a b c d : ℕ) (rand : ℕ → ℕ)
    (hr : ∀ k, RANGE.1 ≤ rand k ∧ rand k < RANGE.2) :
    (f_391 [[a, b], [c, d]] rand).length = a * b ∧
    ∀ row ∈ f_391 [[a, b], [c, d]] rand,
      row.length = c * d ∧ ∀ v ∈ row, 1 ≤ v ∧ v < 100 := by
  constructor
  · simp [f_391]
  · intro row hrow
    rcases List.mem_map.mp hrow with ⟨i, _, rfl⟩
    refine ⟨by simp, ?_⟩
    intro v hv
    rcases List.mem_map.mp hv with ⟨j, _, rfl⟩
    exact hr _

/-- Witness for `f_391_shape_range_spec` at `[[2, 3], [5, 6]]` with the
constant draw 1. -/
theorem f_391_shape_range_spec_witness :
    (∀ k : ℕ, RANGE.1 ≤ (fun _ : ℕ => 1) k ∧ (fun _ : ℕ => 1) k < RANGE.2) ∧
    ((f_391 [[2, 3], [5, 6]] (fun _ => 1)).length = 2 * 3 ∧
      ∀ row ∈ f_391 [[2, 3], [5, 6]] (fun _ => 1),
        row.length = 5 * 6 ∧ ∀ v ∈ row, 1 ≤ v ∧ v < 100) := by
  exact ⟨fun _ => ⟨by norm_num [RANGE], by norm_num [RANGE]⟩,
    f_391_shape_range_spec 2 3 5 6 (fun _ => 1)
      (fun _ => ⟨by norm_num [RANGE], by norm_num [RANGE]⟩)⟩

end F391

namespace F32

/-- Python's `datetime.weekday()` (Monday = 0 … Sunday = 6) for the day
that lies `d` days after 1970-01-01, which was a Thursday (weekday 3). -/
def weekday (d : ℤ) : ℤ := (d + 3) % 7

/-- Day number (days since 1970-01-01) of the Gregorian calendar date
`y-m-d`, the standard civil-from-date conversion; this models the
datetime value produced by `dateutil.parser.parse` on a `yyyy-mm-dd`
string.  All divisions are floor divisions. -/
def toDays (y m d : ℤ) : ℤ :=
  let y2 := if m ≤ 2 then y - 1 else y
  let era := y2.fdiv 400
  let yoe := y2 - era * 400
  let mp := (m + 9) % 12
  let doy := (153 * mp + 2).fdiv 5 + d - 1
  let doe := yoe * 365 + yoe.fdiv 4 - yoe.fdiv 100 + doy
  era * 146097 + doe - 719468

/-- Embedding of `f_32` from `src/data/processed/f_509_ming_wo_doc.py`
applied to the parsed input date (as a day number): the
`while True: next_day += 1; if 0 <= weekday < 5: break` loop.  Lean
requires the termination argument the Python loop leaves implicit: the
loop only continues across Saturday/Sunday, so it stops within three
steps. -/
def f_32 (given_date : ℤ) : ℤ :=
  if 0 ≤ weekday (given_date + 1) ∧ weekday (given_date + 1) < 5 then
    given_date + 1
  else f_32 (given_date + 1)
termination_by ((4 - given_date) % 7).toNat
decreasing_by
  simp only [weekday] at *
  omega

/-- Closed form of the loop, by cases on the starting day of week:
starting on a Friday (`d % 7 = 1`) lands three days later, on a
Saturday (`d % 7 = 2`) two days later, otherwise the very next day. -/
lemma f_32_closed (d : ℤ) :
    f_32 d = if d % 7 = 1 then d + 3 else if d % 7 = 2 then d + 2 else d + 1 := by
  have h7 : d % 7 = 0 ∨ d % 7 = 1 ∨ d % 7 = 2 ∨ d % 7 = 3 ∨ d % 7 = 4 ∨
      d % 7 = 5 ∨ d % 7 = 6 := by omega
  rcases h7 with h | h | h | h | h | h | h
  · rw [f_32, if_pos (by unfold weekday; omega), if_neg (by omega), if_neg (by omega)]
  · rw [f_32, if_neg (by unfold weekday; omega),
      f_32, if_neg (by unfold weekday; omega),
      f_32, if_pos (by unfold weekday; omega), if_pos h]
    ring
  · rw [f_32, if_neg (by unfold weekday; omega),
      f_32, if_pos (by unfold weekday; omega), if_neg (by omega), if_pos h]
    ring
  · rw [f_32, if_pos (by unfold weekday; omega), if_neg (by omega), if_neg (by omega)]
  · rw [f_32, if_pos (by unfold weekday; omega), if_neg (by omega), if_neg (by omega)]
  · rw [f_32, if_pos (by unfold weekday; omega), if_neg (by omega), if_neg (by omega)]
  · rw [f_32, if_pos (by unfold weekday; omega), if_neg (by omega), if_neg (by omega)]

/-- C8: for every parsed date, `f_32` returns a strictly later date
whose weekday is Monday-Friday, and every day strictly between the
input and the result (there may be none) is a weekend day, so the
result is the next business day reached by advancing one day at a
time; in particular 2022-10-22 (Saturday) maps to Monday 2022-10-24
and 2022-10-28 (Friday) maps to Monday 2022-10-31. -/
theorem f_32_next_business_day_spec (d : ℤ) :
    d < f_32 d ∧
    (0 ≤ weekday (f_32 d) ∧ weekday (f_32 d) < 5) ∧
    (∀ e : ℤ, d < e → e < f_32 d → 5 ≤ weekday e) ∧
    f_32 (toDays 2022 10 22) = toDays 2022 10 24 ∧
    f_32 (toDays 2022 10 28) = toDays 2022 10 31 := by
  have hc := f_32_closed d
  have h22 : toDays 2022 10 22 = 19287 := by decide
  have h24 : toDays 2022 10 24 = 19289 := by decide
  have h28 : toDays 2022 10 28 = 19293 := by decide
  have h31 : toDays 2022 10 31 = 19296 := by decide
  refine ⟨?_, ?_, ?_, ?_, ?_⟩
  · rw [hc]; split_ifs <;> omega
  · rw [hc]; unfold weekday; split_ifs at * <;> omega
  · intro e h1 h2
    rw [hc] at h2
    unfold weekday
    split_ifs at h2 <;> omega
  · rw [h22, h24, f_32_closed]
    norm_num
  · rw [h28, h31, f_32_closed]
    norm_num

/-- Witness instantiating `f_32_next_business_day_spec` at the Saturday
day number 19287 (2022-10-22). -/
theorem f_32_next_business_day_spec_witness :
    (19287 : ℤ) < f_32 19287 ∧
    (0 ≤ weekday (f_32 19287) ∧ weekday (f_32 19287) < 5) ∧
    (∀ e : ℤ, (19287 : ℤ) < e → e < f_32 19287 → 5 ≤ weekday e) ∧
    f_32 (toDays 2022 10 22) = toDays 2022 10 24 ∧
    f_32 (toDays 2022 10 28) = toDays 2022 10 31 :=
  f_32_next_business_day_spec 19287

/-- C10: the advancing loop of `f_32` is total (it is a terminating
function in this embedding) and performs between one and three
iterations: the result is at least one and at most three days after the
parsed input date. -/
theorem f_32_loop_bound_spec (d : ℤ) : d + 1 ≤ f_32 d ∧ f_32 d ≤ d + 3 := by
  rw [f_32_closed]
  split_ifs <;> omega

end F32

namespace F843

/-- The constant `POSSIBLE_NUMBERS = np.arange(1, 11)`, i.e.
`[1, 2, ..., 10]`. -/
def POSSIBLE_NUMBERS : List ℕ := List.range' 1 10

/-- Embedding of `f_843` from `src/data/processed/f_705_xiaoheng_w_doc.py`:
for each sublist, sum `math.pow(x, 2)` over the first `len(sublist)`
entries of `POSSIBLE_NUMBERS` (Python slicing truncates silently), the
float results modelled as rationals. -/
def f_843 (list_of_lists : List (List ℤ)) : List ℚ :=
  list_of_lists.map (fun list2 =>
    ((POSSIBLE_NUMBERS.take list2.length).map (fun x => (x : ℚ) ^ 2)).sum)

/-- C9: `f_843` returns one sum per sublist in input order; an empty
sublist yields 0, a sublist of length at least 10 silently truncates to
the whole constant sequence (sum 385 = 1² + ... + 10²) instead of
erroring, and `f_843 [[1,2,3],[4,5]] = [14, 5]`. -/
theorem f_843_sums_spec (L : List (List ℤ)) (i : ℕ) (hi : i < L.length) :
    (f_843 L).length = L.length ∧
    (f_843 L).getD i 0
      = ((POSSIBLE_NUMBERS.take ((L.getD i []).length)).map
          (fun x => (x : ℚ) ^ 2)).sum ∧
    ((L.getD i []).length = 0 → (f_843 L).getD i 0 = 0) ∧
    (10 ≤ (L.getD i []).length → (f_843 L).getD i 0 = 385) ∧
    f_843 [[1, 2, 3], [4, 5]] = [14, 5] := by
  have hgot : (f_843 L).getD i 0
      = ((POSSIBLE_NUMBERS.take ((L.getD i []).length)).map
          (fun x => (x : ℚ) ^ 2)).sum := by
    exact F235.getD_map_eq L
      (fun list2 => ((POSSIBLE_NUMBERS.take list2.length).map
        (fun x => (x : ℚ) ^ 2)).sum) i 0 [] hi
  refine ⟨by simp [f_843], hgot, ?_, ?_, ?_⟩
  · intro h0
    rw [hgot, h0]
    simp
  · intro h10
    rw [hgot, List.take_of_length_le (by simpa [POSSIBLE_NUMBERS] using h10)]
    norm_num [POSSIBLE_NUMBERS, List.range']
  · norm_num [f_843, POSSIBLE_NUMBERS, List.range']

/-- Witness for `f_843_sums_spec` at a list holding an empty sublist
and a sublist of length 12 (longer than the constant sequence). -/
theorem f_843_sums_spec_witness :
    (0 < ([[], [1, 1, 1, 1, 1, 1, 1, 1, 1, 1, 1, 1]] : List (List ℤ)).length) ∧
    ((f_843 [[], [1, 1, 1, 1, 1, 1, 1, 1, 1, 1, 1, 1]]).length
        = ([[], [1, 1, 1, 1, 1, 1, 1, 1, 1, 1, 1, 1]] : List (List ℤ)).length ∧
      (f_843 [[], [1, 1, 1, 1, 1, 1, 1, 1, 1, 1, 1, 1]]).getD 0 0
        = ((POSSIBLE_NUMBERS.take
            ((([[], [1, 1, 1, 1, 1, 1, 1, 1, 1, 1, 1, 1]] : List (List ℤ)).getD 0 []).length)).map
            (fun x => (x : ℚ) ^ 2)).sum ∧
      ((([[], [1, 1, 1, 1, 1, 1, 1, 1, 1, 1, 1, 1]] : List (List ℤ)).getD 0 []).length = 0 →
        (f_843 [[], [1, 1, 1, 1, 1, 1, 1, 1, 1, 1, 1, 1]]).getD 0 0 = 0) ∧
      (10 ≤ (([[], [1, 1, 1, 1, 1, 1, 1, 1, 1, 1, 1, 1]] : List (List ℤ)).getD 0 []).length →
        (f_843 [[], [1, 1, 1, 1, 1, 1, 1, 1, 1, 1, 1, 1]]).getD 0 0 = 385) ∧
      f_843 [[1, 2, 3], [4, 5]] = [14, 5]) := by
  exact ⟨by norm_num,
    f_843_sums_spec [[], [1, 1, 1, 1, 1, 1, 1, 1, 1, 1, 1, 1]] 0 (by norm_num)⟩

end F843
